import Mathlib

/-!
Shallow embedding of `scripts/update-readme.py` (the "Nexus README Updater").

Text is modelled as `List Char` (Python `str`); the regular expressions of the
source are embedded as executable scanning functions with the exact
leftmost-match / greedy / lazy backtracking semantics described next to each
definition.  Character classes (`\w`, `\s`, `str.lower`, `str.upper`,
`str.capitalize`, `str.title`) are modelled at the ASCII level.
-/

set_option maxRecDepth 40000

/-- Python `\s` (ASCII range): space, tab, newline, carriage return,
vertical tab, form feed. -/
def isWSChar (c : Char) : Bool :=
  decide (c.toNat = 32 ∨ c.toNat = 9 ∨ c.toNat = 10 ∨ c.toNat = 13 ∨
          c.toNat = 11 ∨ c.toNat = 12)

/-- Python `\w` (ASCII range): digits, letters, underscore. -/
def isWordChar (c : Char) : Bool :=
  decide ((48 ≤ c.toNat ∧ c.toNat ≤ 57) ∨ (65 ≤ c.toNat ∧ c.toNat ≤ 90) ∨
          (97 ≤ c.toNat ∧ c.toNat ≤ 122) ∨ c.toNat = 95)

/-- The characters kept by `re.sub(r"[^\w\s-]", "", ...)`:
word characters, whitespace and the hyphen (code 45). -/
def keepChar (c : Char) : Bool :=
  isWordChar c || isWSChar c || decide (c.toNat = 45)

/-- ASCII model of Python `str.lower` on one character. -/
def lowerChar (c : Char) : Char :=
  if h : 65 ≤ c.toNat ∧ c.toNat ≤ 90 then
    Char.ofNatAux (c.toNat + 32) (Or.inl (by omega))
  else c

/-- ASCII model of Python `str.upper` on one character. -/
def upperChar (c : Char) : Char :=
  if h : 97 ≤ c.toNat ∧ c.toNat ≤ 122 then
    Char.ofNatAux (c.toNat - 32) (Or.inl (by omega))
  else c

/-- Python `str.strip()`: remove leading and trailing whitespace. -/
def stripChars (l : List Char) : List Char :=
  ((l.dropWhile isWSChar).reverse.dropWhile isWSChar).reverse

/-- Helper for `collapseWS`: the flag records whether the previous character
was whitespace (in which case a further whitespace character extends the
already-collapsed run and emits nothing). -/
def collapseWSAux (prevWS : Bool) : List Char → List Char
  | [] => []
  | c :: rest =>
    if isWSChar c then
      if prevWS then collapseWSAux true rest
      else '-' :: collapseWSAux true rest
    else c :: collapseWSAux false rest

/-- Python `re.sub(r"\s+", "-", ...)`: every maximal run of whitespace
becomes a single hyphen. -/
def collapseWS (l : List Char) : List Char :=
  collapseWSAux false l

/-- First half of `parse_existing_stack_headers`'s key derivation:
`re.sub(r"[^\w\s-]", "", display_name).strip().lower()` followed by
`re.sub(r"\s+", "-", ...)`. -/
def rawKey (l : List Char) : List Char :=
  collapseWS (((stripChars (l.filter keepChar)).map lowerChar))

/-- Option-valued first-occurrence index of `pat` in a character list, the
semantics of `re.search` for a literal pattern. -/
def findSubstr (pat : List Char) : List Char → Option Nat
  | [] => if List.isPrefixOf pat ([] : List Char) then some 0 else none
  | c :: rest =>
    if List.isPrefixOf pat (c :: rest) then some 0
    else (findSubstr pat rest).map (· + 1)

/-- Python `pat in s` substring containment. -/
def containsSub (pat l : List Char) : Bool :=
  (findSubstr pat l).isSome

/-- The synonym-collapse if/elif chain of `parse_existing_stack_headers`. -/
def synApply (k : List Char) : List Char :=
  if containsSub "root".data k then "root".data
  else if k = "app".data ∨ k = "apps".data ∨ k = "application".data ∨
          k = "applications".data then "app".data
  else if k = "core".data ∨ k = "infrastructure".data ∨ k = "infra".data then "core".data
  else if k = "data".data ∨ k = "database".data ∨ k = "storage".data then "data".data
  else if k = "log".data ∨ k = "logs".data ∨ k = "logging".data ∨
          k = "monitoring".data then "log".data
  else if k = "media".data ∨ k = "movies".data ∨ k = "tv".data ∨
          k = "entertainment".data then "media".data
  else k

/-- Stack key derived from a display name: normalization then the synonym
table, exactly as in `parse_existing_stack_headers`. -/
def stackKeyChars (l : List Char) : List Char :=
  synApply (rawKey l)

/-- String-level wrapper for the stack-key derivation. -/
def stackKeyOfName (s : String) : String :=
  String.mk (stackKeyChars s.data)

/-- A service triple as produced by `ComposeParser.parse_compose_file`:
`(service_name, description, url)`. -/
abbrev Svc := String × String × Option String

/-- The shape of a service's `labels` field after YAML parsing: a mapping,
a list of strings, or some other YAML value (in which case both
`isinstance` checks of the source fail). -/
inductive Labels where
  | dict (entries : List (String × String))
  | strList (items : List String)
  | other

/-- A value of the `services` mapping: either a YAML mapping carrying the
labels, or a non-mapping value (skipped by `parse_compose_file`). -/
inductive ServiceEntry where
  | mapping (labels : Labels)
  | nonMapping

/-- Python dict lookup on an association list with unique keys
(`labels.get(key)` / `self.stacks.get(key)`). -/
def dictGet {α : Type} (k : String) : List (String × α) → Option α
  | [] => none
  | p :: rest => if p.1 = k then some p.2 else dictGet k rest

/-- The label-based description lookup of `extract_description`: for a
labels mapping, `labels.get("homepage.description")` kept only when truthy
(non-empty); for a labels list, the first string item starting with
`homepage.description:` with the text after the first colon stripped
(returned even when empty, as in the source). -/
def labelDescription : Labels → Option (List Char)
  | Labels.dict entries =>
    match dictGet "homepage.description" entries with
    | some v => if v.data.isEmpty then none else some v.data
    | none => none
  | Labels.strList items =>
    match items.find? (fun it => List.isPrefixOf "homepage.description:".data it.data) with
    | some it => some (stripChars (it.data.drop "homepage.description:".data.length))
    | none => none
  | Labels.other => none

/-- Backtracking `\s*pat`: some (possibly empty) prefix of whitespace
followed by the literal `pat`. -/
def wsThenMatch (pat : List Char) : List Char → Bool
  | [] => List.isPrefixOf pat ([] : List Char)
  | c :: rest =>
    List.isPrefixOf pat (c :: rest) || (isWSChar c && wsThenMatch pat rest)

/-- Match of `\s*#\s*name:` at one position of the text (the body of
the `re.MULTILINE` search of `parse_compose_file` for commented-out
service declarations). -/
def commentedMatchAt (name : List Char) : List Char → Bool
  | [] => false
  | c :: rest =>
    if c = '#' then wsThenMatch (name ++ [':']) rest
    else isWSChar c && commentedMatchAt name rest

/-- Scan for a match of `^\s*#\s*name:` at a position following a newline. -/
def commentedOutAux (name : List Char) : List Char → Bool
  | [] => false
  | c :: rest => (c = '\n' && commentedMatchAt name rest) || commentedOutAux name rest

/-- `re.search(rf"^\s*#\s*{name}:", content, re.MULTILINE)` is some:
the pattern matches at the start of the text or right after any newline. -/
def commentedOut (name content : List Char) : Bool :=
  commentedMatchAt name content || commentedOutAux name content

/-- Core of the preceding-comment regex `#\s*(.+?)\n\s*name:` once the
whitespace run after `#` has been fixed: the capture is forced to run from
the current position to the end of the current line, and must be followed
by a newline and then `\s*name:`. -/
def tryCore (name : List Char) (s : List Char) : Option (List Char) :=
  match s with
  | [] => none
  | c :: _ =>
    if c = '\n' then none
    else
      let cap := s.takeWhile (fun x => x ≠ '\n')
      match s.drop cap.length with
      | '\n' :: r2 => if wsThenMatch (name ++ [':']) r2 then some cap else none
      | _ => none

/-- Backtracking over the length of the greedy `\s*` after `#`: the regex
engine tries the longest whitespace run first and shortens it on failure. -/
def tryWsLens (name l : List Char) : Nat → Option (List Char)
  | 0 => tryCore name l
  | k + 1 =>
    match tryCore name (l.drop (k + 1)) with
    | some cap => some cap
    | none => tryWsLens name l k

/-- Attempted match of `#\s*(.+?)\n\s*name:` with the `#` just consumed
and `l` the remaining text. -/
def tryCommentMatch (name l : List Char) : Option (List Char) :=
  tryWsLens name l (l.takeWhile isWSChar).length

/-- `re.search(rf"#\s*(.+?)\n\s*{name}:", content)`: leftmost match,
returning the captured comment text. -/
def findCommentCapture (name : List Char) : List Char → Option (List Char)
  | [] => none
  | c :: rest =>
    if c = '#' then
      match tryCommentMatch name rest with
      | some cap => some cap
      | none => findCommentCapture name rest
    else findCommentCapture name rest

/-- `re.sub(r"^[-*]\s*", "", comment)`: one leading bullet character and
the following whitespace run are removed. -/
def stripBullet (l : List Char) : List Char :=
  match l with
  | c :: rest => if c = '-' ∨ c = '*' then rest.dropWhile isWSChar else l
  | [] => []

/-- `ComposeParser.extract_description`: the `homepage.description` label
wins; otherwise the comment preceding the service declaration is used when
it is non-empty after cleanup and does not start with `!`; otherwise the
empty string. -/
def extract_description (labels : Labels) (name content : List Char) : List Char :=
  match labelDescription labels with
  | some d => d
  | none =>
    match findCommentCapture name content with
    | some raw =>
      let comment := stripBullet (stripChars raw)
      if comment.isEmpty then []
      else if comment.head? = some '!' then []
      else comment
    | none => []

/-- Scan of `Host(\x60([^\x60]+)\x60\)` inside a label value: first literal
occurrence with a non-empty backtick-free host and a closing backtick and
parenthesis. -/
def findHost : List Char → Option (List Char)
  | [] => none
  | c :: rest =>
    if List.isPrefixOf "Host(\x60".data (c :: rest) then
      let after := (c :: rest).drop 6
      let host := after.takeWhile (fun x => x ≠ '\x60')
      match host, after.drop host.length with
      | _ :: _, '\x60' :: ')' :: _ => some host
      | _, _ => findHost rest
    else findHost rest

/-- One attempted match of `\$\x7bDOMAIN[^\x7d]*\x7d` at the head of the
list; on success returns the remaining text after the closing brace. -/
def matchDomainTok (l : List Char) : Option (List Char) :=
  if List.isPrefixOf "$\x7bDOMAIN".data l then
    let r := l.drop "$\x7bDOMAIN".data.length
    let run := r.takeWhile (fun x => x ≠ '\x7d')
    match r.drop run.length with
    | c :: rem => if c = '\x7d' then some rem else none
    | [] => none
  else none

/-- Fuel-driven body of `re.sub(r"\$\x7bDOMAIN[^\x7d]*\x7d", domain, host)`;
the fuel is an upper bound on the scanned length, `substDomain` supplies
the list length, which suffices because every step consumes at least one
character. -/
def substDomainAux (domain : List Char) : Nat → List Char → List Char
  | 0, l => l
  | _, [] => []
  | fuel + 1, c :: rest =>
    match matchDomainTok (c :: rest) with
    | some rem => domain ++ substDomainAux domain fuel rem
    | none => c :: substDomainAux domain fuel rest

/-- `re.sub(r"\$\x7bDOMAIN[^\x7d]*\x7d", domain, host)`: replace every
`$\x7bDOMAIN...\x7d` placeholder with the domain string. -/
def substDomain (domain host : List Char) : List Char :=
  substDomainAux domain host.length host

/-- `ComposeParser.extract_url`: first traefik router rule label with a
`Host(...)` expression produces `https://` plus the host with `DOMAIN`
placeholders substituted; both label encodings are supported. -/
def extract_url (labels : Labels) (domain : List Char := "DOMAIN".data) : Option (List Char) :=
  match labels with
  | Labels.dict entries =>
    entries.findSome? (fun kv =>
      if containsSub "traefik.http.routers".data kv.1.data ∧ containsSub ".rule".data kv.1.data then
        (findHost kv.2.data).map (fun host => "https://".data ++ substDomain domain host)
      else none)
  | Labels.strList items =>
    items.findSome? (fun it =>
      if containsSub "traefik.http.routers".data it.data ∧ containsSub ".rule".data it.data then
        (findHost it.data).map (fun host => "https://".data ++ substDomain domain host)
      else none)
  | Labels.other => none

/-- Code-point comparison of character lists, the semantics of Python
string `<=` used through `list.sort(key=...)`. -/
def lexLe : List Char → List Char → Bool
  | [], _ => true
  | _ :: _, [] => false
  | a :: as, b :: bs => if a.toNat = b.toNat then lexLe as bs else decide (a.toNat < b.toNat)

/-- Sort key comparison of `services.sort(key=lambda x: x[0].lower())`. -/
def svcLe (a b : Svc) : Bool :=
  lexLe (a.1.data.map lowerChar) (b.1.data.map lowerChar)

/-- Stable insertion used to model Python's stable `list.sort`: a new
element goes after every existing element whose key is `<=` its key. -/
def insertSorted (x : Svc) : List Svc → List Svc
  | [] => [x]
  | y :: ys => if svcLe y x then y :: insertSorted x ys else x :: y :: ys

/-- Stable sort of the service triples by lowercased name, modelling
`services.sort(key=lambda x: x[0].lower())`. -/
def sortSvcs (l : List Svc) : List Svc :=
  l.foldl (fun acc x => insertSorted x acc) []

/-- `ComposeParser.parse_compose_file`, modelled at the level of the parsed
`services` mapping items plus the raw file text.  The guards preceding the
loop in the source (missing file, unparsable YAML, missing `services` key)
all return the empty list and are not modelled.  Non-mapping entries are
skipped; entries whose name has a commented-out declaration line in the raw
text are skipped; the rest yield `(name, description, url)`; the result is
sorted by lowercased name. -/
def parse_compose_file (services : List (String × ServiceEntry)) (content : String) : List Svc :=
  sortSvcs (services.filterMap (fun p =>
    match p.2 with
    | ServiceEntry.nonMapping => none
    | ServiceEntry.mapping labels =>
      if commentedOut p.1.data content.data then none
      else some (p.1, String.mk (extract_description labels p.1.data content.data),
                 (extract_url labels).map String.mk)))

/-- The literal heading that starts the designated section,
`## 🏗️ Stack/Service Lineup`. -/
def LINEUP : List Char := "## 🏗️ Stack/Service Lineup".data

/-- The lookahead literal `\n## ` that terminates the designated section. -/
def SECEND : List Char := "\n## ".data

/-- Embedding of `re.search(r"## 🏗️ Stack/Service Lineup.*?(?=\n## |\Z)",
content, re.DOTALL)`: the match starts at the first occurrence of the
heading literal and extends (lazily, `.` matching newlines) to the position
of the first later occurrence of `\n## `, or to the end of the text.  On
success the text splits as `(before, section, after)`. -/
def splitSection (content : List Char) : Option (List Char × List Char × List Char) :=
  match findSubstr LINEUP content with
  | none => none
  | some i =>
    match findSubstr SECEND ((content.drop i).drop LINEUP.length) with
    | none => some (content.take i, content.drop i, [])
    | some j =>
      some (content.take i, (content.drop i).take (LINEUP.length + j),
            (content.drop i).drop (LINEUP.length + j))

/-- Capture of `(.+?)$` (MULTILINE) once `###\s+` has been matched: the
capture is forced to run to the end of the current line; it succeeds
whenever the current character is not a newline.  Returns the capture and
the remaining text (the match ends at the zero-width `$`). -/
def h3Core (s : List Char) : Option (List Char × List Char) :=
  match s with
  | [] => none
  | c :: _ =>
    if c = '\n' then none
    else
      let cap := s.takeWhile (fun x => x ≠ '\n')
      some (cap, s.drop cap.length)

/-- Backtracking over the greedy `\s+` of the header pattern: try the
longest whitespace run first (`k + 1` characters), shorten on failure,
never shorter than one character. -/
def goH3 (l : List Char) : Nat → Option (List Char × List Char)
  | 0 => none
  | k + 1 =>
    match h3Core (l.drop (k + 1)) with
    | some r => some r
    | none => goH3 l k

/-- Attempted match of `\s+(.+?)$` after a literal `###`. -/
def h3Match (l : List Char) : Option (List Char × List Char) :=
  goH3 l (l.takeWhile isWSChar).length

/-- Fuel-driven scan of `re.finditer(r"###\s+(.+?)$", section, re.MULTILINE)`:
at each position, a literal `###` followed by a match of `\s+(.+?)$` yields
a capture and scanning resumes after the match; otherwise the scan advances
one character.  The fuel is the text length, which suffices because every
step consumes at least one character. -/
def findHeadersAux : Nat → List Char → List (List Char)
  | 0, _ => []
  | fuel + 1, l =>
    match l with
    | '#' :: '#' :: '#' :: rest =>
      match h3Match rest with
      | some (cap, rem) => cap :: findHeadersAux fuel rem
      | none => findHeadersAux fuel ('#' :: '#' :: rest)
    | _ :: rest => findHeadersAux fuel rest
    | [] => []

/-- All captures of the `###` header pattern inside the section text. -/
def findHeaders (sec : List Char) : List (List Char) :=
  findHeadersAux sec.length sec

/-- `ReadmeUpdater.parse_existing_stack_headers`: locate the designated
section, collect every `###` header as `(display_name, stack_key)` with the
display name stripped and the key derived by `stackKeyChars`.  `none`
models the `ValueError` raised when the section is absent or contains no
headers. -/
def parse_existing_stack_headers (content : String) : Option (List (String × String)) :=
  match splitSection content.data with
  | none => none
  | some (_, sec, _) =>
    let headers := (findHeaders sec).map (fun cap =>
      let dn := String.mk (stripChars cap)
      (dn, String.mk (stackKeyChars dn.data)))
    if headers.isEmpty then none else some headers

/-- Python `str.capitalize` (ASCII model): first character uppercased,
the rest lowercased. -/
def pyCapitalizeChars (l : List Char) : List Char :=
  match l with
  | [] => []
  | c :: rest => upperChar c :: rest.map lowerChar

/-- ASCII letter test used by the `str.title` model. -/
def isAsciiAlpha (c : Char) : Bool :=
  decide ((65 ≤ c.toNat ∧ c.toNat ≤ 90) ∨ (97 ≤ c.toNat ∧ c.toNat ≤ 122))

/-- Helper for `pyTitleChars`; the flag records whether the previous
character was a letter. -/
def pyTitleAux : Bool → List Char → List Char
  | _, [] => []
  | prevAlpha, c :: rest =>
    (if isAsciiAlpha c then (if prevAlpha then lowerChar c else upperChar c) else c) ::
      pyTitleAux (isAsciiAlpha c) rest

/-- Python `str.title` (ASCII model): a letter is uppercased when the
previous character is not a letter, lowercased otherwise. -/
def pyTitleChars (l : List Char) : List Char :=
  pyTitleAux false l

/-- Python `sep.join(...)` on character lists. -/
def sepJoin (sep : List Char) : List (List Char) → List Char
  | [] => []
  | [x] => x
  | x :: xs => x ++ sep ++ sepJoin sep xs

/-- One service entry of `generate_markdown_table`: the capitalized name in
bold, followed by ` - ` and the description when the description is
non-empty. -/
def entryChars (svc : Svc) : List Char :=
  let disp := "**".data ++ pyCapitalizeChars svc.1.data ++ "**".data
  if svc.2.1.data.isEmpty then disp else disp ++ " - ".data ++ svc.2.1.data

/-- `ReadmeUpdater.generate_markdown_table`: the service entries joined
with the decorative ` • ` separator.  The `url` component of each triple is
never consulted. -/
def generate_markdown_table (services : List Svc) : List Char :=
  sepJoin " • ".data (services.map entryChars)

/-- The placeholder line emitted for a stack with no services. -/
def placeholder : List Char := "_No services defined_".data

/-- The fixed introductory line of the generated section. -/
def dockgeLine : List Char :=
  ("This repository is structured for use with [Dockge](https://dockge.kuma.pet/), " ++
   "offering a clean UI to deploy and maintain Compose stacks:").data

/-- The service line rendered under one stack header: the joined table for
`self.stacks.get(stack_key, [])` when that list is non-empty, the
placeholder otherwise. -/
def bodyLine (stks : List (String × List Svc)) (h : String × String) : List Char :=
  let svcs := (dictGet h.2 stks).getD []
  if svcs.isEmpty then placeholder else generate_markdown_table svcs

/-- The per-header lines of `generate_service_section`, in document order:
`### display_name`, a blank line, the body line, a blank line. -/
def stackBlocks (stks : List (String × List Svc)) : List (String × String) → List (List Char)
  | [] => []
  | h :: hs =>
    ("### ".data ++ h.1.data) :: [] :: bodyLine stks h :: [] :: stackBlocks stks hs

/-- The lines of `ReadmeUpdater.generate_service_section`. -/
def sectionLines (headers : List (String × String)) (stks : List (String × List Svc)) :
    List (List Char) :=
  LINEUP :: [] :: dockgeLine :: [] :: stackBlocks stks headers

/-- `ReadmeUpdater.generate_service_section`: the section lines joined with
newlines. -/
def generate_service_section (headers : List (String × String))
    (stks : List (String × List Svc)) : String :=
  String.mk (sepJoin ['\n'] (sectionLines headers stks))

/-- `actual_stacks - readme_stacks` in `validate_stacks`: stack keys that
have services on disk but no README header. -/
def missing_in_readme (headers : List (String × String))
    (stks : List (String × List Svc)) : Finset String :=
  (stks.map Prod.fst).toFinset \ (headers.map Prod.snd).toFinset

/-- `readme_stacks - actual_stacks` in `validate_stacks`: stack keys
declared in the README with no services on disk. -/
def missing_in_filesystem (headers : List (String × String))
    (stks : List (String × List Svc)) : Finset String :=
  (headers.map Prod.snd).toFinset \ (stks.map Prod.fst).toFinset

/-- `ReadmeUpdater.validate_stacks`: passes exactly when both difference
sets are empty. -/
def validate_stacks (headers : List (String × String))
    (stks : List (String × List Svc)) : Bool :=
  if (missing_in_readme headers stks).Nonempty ∨
     (missing_in_filesystem headers stks).Nonempty then false else true

/-- One attempted match of `\[([^\]]+)\]\(([^\)]+)\)` with the opening
bracket just consumed: greedy non-empty captures, deterministic because
the character classes exclude the closing delimiters. -/
def tryLink (l : List Char) : Option (List Char × List Char × List Char) :=
  let text := l.takeWhile (fun x => x ≠ ']')
  if text.isEmpty then none
  else
    match l.drop text.length with
    | ']' :: '(' :: r2 =>
      let url := r2.takeWhile (fun x => x ≠ ')')
      if url.isEmpty then none
      else
        match r2.drop url.length with
        | ')' :: rem => some (text, url, rem)
        | _ => none
    | _ => none

/-- Fuel-driven body of `re.finditer(r"\[([^\]]+)\]\(([^\)]+)\)", old)`:
non-overlapping leftmost matches, scanning resuming after each match.  The
fuel is the text length, which suffices because every step consumes at
least one character. -/
def scanLinksAux : Nat → List Char → List (List Char × List Char)
  | 0, _ => []
  | _, [] => []
  | fuel + 1, c :: rest =>
    if c = '[' then
      match tryLink rest with
      | some (t, u, rem) => (t, u) :: scanLinksAux fuel rem
      | none => scanLinksAux fuel rest
    else scanLinksAux fuel rest

/-- All `[label](url)` matches of the old section text, in order. -/
def scanLinks (l : List Char) : List (List Char × List Char) :=
  scanLinksAux l.length l

/-- The dictionary key of `preserve_manual_enhancements`:
`link_text.lower().replace(" ", "").replace("-", "").replace("_", "")`. -/
def linkKey (t : List Char) : List Char :=
  (t.map lowerChar).filter (fun c => decide (c ≠ ' ' ∧ c ≠ '-' ∧ c ≠ '_'))

/-- Python dict assignment `d[k] = v` on an insertion-ordered association
list: an existing key keeps its position and gets the new value. -/
def dictInsert {α : Type} (k : List Char) (v : α) :
    List (List Char × α) → List (List Char × α)
  | [] => [(k, v)]
  | p :: rest => if p.1 = k then (p.1, v) :: rest else p :: dictInsert k v rest

/-- Case-insensitive match of the literal `pat` at the head of `l`
(`re.IGNORECASE`, ASCII case folding). -/
def ciPrefix (pat l : List Char) : Bool :=
  List.isPrefixOf (pat.map lowerChar) ((l.take pat.length).map lowerChar)

/-- Case-insensitive search of the literal `pat` anywhere in the text. -/
def ciSearch (pat : List Char) : List Char → Bool
  | [] => ciPrefix pat []
  | c :: rest => ciPrefix pat (c :: rest) || ciSearch pat rest

/-- Fuel-driven body of case-insensitive `re.sub` for a literal pattern:
non-overlapping occurrences replaced left to right, the replacement text
not rescanned.  The fuel is the text length. -/
def ciReplaceAux (pat repl : List Char) : Nat → List Char → List Char
  | 0, l => l
  | _, [] => []
  | fuel + 1, c :: rest =>
    if !pat.isEmpty && ciPrefix pat (c :: rest) then
      repl ++ ciReplaceAux pat repl fuel ((c :: rest).drop pat.length)
    else c :: ciReplaceAux pat repl fuel rest

/-- `re.sub(pat, repl, l, flags=re.IGNORECASE)` for a literal pattern. -/
def ciReplaceAll (pat repl l : List Char) : List Char :=
  ciReplaceAux pat repl l.length l

/-- The bold-rendered form `**v**` searched for by the enhancement
preserver. -/
def boldWrap (v : List Char) : List Char :=
  "**".data ++ v ++ "**".data

/-- The inner loop of `preserve_manual_enhancements` for one stored link:
the four spelling variants are tried in order, and the first whose
bold-rendered form occurs (case-insensitively) in the text has every
occurrence rewritten into `[**link_text**](link_url)`. -/
def applyLink (text url res : List Char) : List Char :=
  let variants := [text, text.map lowerChar, pyCapitalizeChars text, pyTitleChars text]
  match variants.find? (fun v => ciSearch (boldWrap v) res) with
  | some v =>
    ciReplaceAll (boldWrap v) ("[**".data ++ text ++ "**](".data ++ url ++ ")".data) res
  | none => res

/-- `ReadmeUpdater.preserve_manual_enhancements`: extract every
`[label](url)` of the old section into an insertion-ordered dictionary
keyed by the normalized label, then rewrite the new section once per
stored link. -/
def preserve_manual_enhancements (old_section new_section : String) : String :=
  let manual_links := (scanLinks old_section.data).foldl
    (fun d tu => dictInsert (linkKey (stripChars tu.1))
      (stripChars tu.1, stripChars tu.2) d) []
  String.mk (manual_links.foldl (fun res kv => applyLink kv.2.1 kv.2.2 res) new_section.data)

/-- Python `str.rstrip()`: remove trailing whitespace. -/
def rstripChars (l : List Char) : List Char :=
  (l.reverse.dropWhile isWSChar).reverse

/-- Fuel-driven body of `re.sub(pattern, new_section, content)` for the
section pattern: every section occurrence is replaced.  The fuel is the
text length. -/
def replaceSectionAux (repl : List Char) : Nat → List Char → List Char
  | 0, content => content
  | fuel + 1, content =>
    match splitSection content with
    | none => content
    | some (pre, _, post) => pre ++ repl ++ replaceSectionAux repl fuel post

/-- `re.sub` of the designated-section pattern by the merged section. -/
def replaceSection (repl content : String) : String :=
  String.mk (replaceSectionAux repl.data content.data.length content.data)

/-- The state `update_readme` acts on: the README file content (`none`
when the file does not exist) and the stacks dictionary collected by
`collect_services` (whose entries all have non-empty service lists). -/
structure Env where
  readme : Option String
  stks : List (String × List Svc)

/-- `ReadmeUpdater.update_readme` as a state transformer: returns the new
state and the boolean success flag.  Every failure path (missing README,
failed header parse, failed validation) returns before the write, leaving
the state unchanged; only the success path replaces the README content. -/
def update_readme (env : Env) : Env × Bool :=
  match env.readme with
  | none => (env, false)
  | some content =>
    match parse_existing_stack_headers content with
    | none => (env, false)
    | some headers =>
      if validate_stacks headers env.stks then
        let newSection := generate_service_section headers env.stks
        let updated :=
          match splitSection content.data with
          | some (_, old, _) =>
            replaceSection (preserve_manual_enhancements (String.mk old) newSection) content
          | none =>
            String.mk (rstripChars content.data) ++ "\n\n" ++ newSection ++ "\n"
        ({ env with readme := some updated }, true)
      else (env, false)

/-- The process exit code of `main`: `0` when `update_readme` succeeded,
`1` otherwise. -/
def mainExit (env : Env) : Nat :=
  if (update_readme env).2 then 0 else 1

/-- Projection of a service triple onto the components actually used by the
renderer: name and description, the url erased. -/
def eraseUrl (s : Svc) : String × String :=
  (s.1, s.2.1)

theorem lowerChar_toNat (c : Char) :
    (lowerChar c).toNat =
      if 65 ≤ c.toNat ∧ c.toNat ≤ 90 then c.toNat + 32 else c.toNat := by
  unfold lowerChar
  split <;> rfl

theorem lowerChar_eq_self (c : Char) (h : ¬(65 ≤ c.toNat ∧ c.toNat ≤ 90)) :
    lowerChar c = c := by
  unfold lowerChar
  rw [dif_neg h]

theorem lowerChar_idem (c : Char) : lowerChar (lowerChar c) = lowerChar c := by
  by_cases h : 65 ≤ c.toNat ∧ c.toNat ≤ 90
  · apply lowerChar_eq_self
    rw [lowerChar_toNat, if_pos h]
    omega
  · rw [lowerChar_eq_self c h, lowerChar_eq_self c h]

theorem keepChar_lowerChar (c : Char) (h : keepChar c = true) :
    keepChar (lowerChar c) = true := by
  have ht := lowerChar_toNat c
  simp only [keepChar, isWordChar, isWSChar, Bool.or_eq_true, decide_eq_true_eq] at h ⊢
  by_cases hu : 65 ≤ c.toNat ∧ c.toNat ≤ 90
  · rw [if_pos hu] at ht; omega
  · rw [if_neg hu] at ht; omega

theorem isWSChar_lowerChar (c : Char) (h : isWSChar c = false) :
    isWSChar (lowerChar c) = false := by
  have ht := lowerChar_toNat c
  simp only [isWSChar, decide_eq_false_iff_not] at h ⊢
  by_cases hu : 65 ≤ c.toNat ∧ c.toNat ≤ 90
  · rw [if_pos hu] at ht; omega
  · rw [if_neg hu] at ht; omega

theorem mem_collapseWSAux {c : Char} :
    ∀ {l : List Char} (b : Bool),
      c ∈ collapseWSAux b l → c = '-' ∨ (c ∈ l ∧ isWSChar c = false) := by
  intro l
  induction l with
  | nil => intro b h; simp [collapseWSAux] at h
  | cons x rest ih =>
    intro b h
    rcases hws : isWSChar x with _ | _
    · simp only [collapseWSAux, hws, Bool.false_eq_true, if_false, List.mem_cons] at h
      rcases h with h1 | h2
      · exact Or.inr ⟨h1 ▸ List.mem_cons_self x rest, h1 ▸ hws⟩
      · rcases ih false h2 with h3 | ⟨h4, h5⟩
        · exact Or.inl h3
        · exact Or.inr ⟨List.mem_cons_of_mem _ h4, h5⟩
    · cases b
      · simp only [collapseWSAux, hws, if_true, Bool.false_eq_true, if_false,
                   List.mem_cons] at h
        rcases h with h1 | h2
        · exact Or.inl h1
        · rcases ih true h2 with h3 | ⟨h4, h5⟩
          · exact Or.inl h3
          · exact Or.inr ⟨List.mem_cons_of_mem _ h4, h5⟩
      · simp only [collapseWSAux, hws, if_true] at h
        rcases ih true h with h3 | ⟨h4, h5⟩
        · exact Or.inl h3
        · exact Or.inr ⟨List.mem_cons_of_mem _ h4, h5⟩

theorem mem_collapseWS {c : Char} {l : List Char} (h : c ∈ collapseWS l) :
    c = '-' ∨ (c ∈ l ∧ isWSChar c = false) :=
  mem_collapseWSAux false h

theorem mem_stripChars {c : Char} {l : List Char} (h : c ∈ stripChars l) : c ∈ l := by
  unfold stripChars at h
  rw [List.mem_reverse] at h
  have h2 := (List.dropWhile_sublist isWSChar).mem h
  rw [List.mem_reverse] at h2
  exact (List.dropWhile_sublist isWSChar).mem h2

theorem rawKey_chars {c : Char} {l : List Char} (h : c ∈ rawKey l) :
    keepChar c = true ∧ isWSChar c = false ∧ lowerChar c = c := by
  rcases mem_collapseWS h with rfl | ⟨hmem, hws⟩
  · refine ⟨by decide, by decide, by decide⟩
  · rcases List.mem_map.mp hmem with ⟨c0, hc0, rfl⟩
    have hkeep := List.of_mem_filter (mem_stripChars hc0)
    exact ⟨keepChar_lowerChar c0 hkeep, hws, lowerChar_idem c0⟩

theorem dropWhile_eq_self_of {p : Char → Bool} {l : List Char}
    (h : ∀ c ∈ l, p c = false) : l.dropWhile p = l := by
  cases l with
  | nil => rfl
  | cons c rest =>
    rw [List.dropWhile_cons, if_neg]
    simp [h c (List.mem_cons_self c rest)]

theorem collapseWS_eq_self_of {l : List Char}
    (h : ∀ c ∈ l, isWSChar c = false) : collapseWS l = l := by
  unfold collapseWS
  induction l with
  | nil => rfl
  | cons x rest ih =>
    have hx := h x (List.mem_cons_self x rest)
    simp only [collapseWSAux, hx, Bool.false_eq_true, if_false]
    rw [ih (fun c hc => h c (List.mem_cons_of_mem _ hc))]

theorem map_eq_self_of {f : Char → Char} {l : List Char}
    (h : ∀ c ∈ l, f c = c) : l.map f = l := by
  induction l with
  | nil => rfl
  | cons c rest ih =>
    rw [List.map_cons, h c (List.mem_cons_self c rest),
        ih (fun d hd => h d (List.mem_cons_of_mem _ hd))]

theorem rawKey_idem (l : List Char) : rawKey (rawKey l) = rawKey l := by
  have hfilter : (rawKey l).filter keepChar = rawKey l :=
    List.filter_eq_self.mpr (fun c hc => (rawKey_chars hc).1)
  have hnows : ∀ c ∈ rawKey l, isWSChar c = false :=
    fun c hc => (rawKey_chars hc).2.1
  have hstrip : stripChars (rawKey l) = rawKey l := by
    unfold stripChars
    rw [dropWhile_eq_self_of hnows]
    rw [dropWhile_eq_self_of (fun c hc => hnows c (List.mem_reverse.mp hc))]
    exact List.reverse_reverse _
  have hmap : (rawKey l).map lowerChar = rawKey l :=
    map_eq_self_of (fun c hc => (rawKey_chars hc).2.2)
  have hdef : rawKey (rawKey l) =
      collapseWS ((stripChars ((rawKey l).filter keepChar)).map lowerChar) := rfl
  rw [hdef, hfilter, hstrip, hmap]
  exact collapseWS_eq_self_of hnows

theorem synApply_total (k : List Char) :
    synApply k = k ∨ synApply k = "root".data ∨ synApply k = "app".data ∨
    synApply k = "core".data ∨ synApply k = "data".data ∨
    synApply k = "log".data ∨ synApply k = "media".data := by
  unfold synApply
  split
  · exact Or.inr (Or.inl rfl)
  · split
    · exact Or.inr (Or.inr (Or.inl rfl))
    · split
      · exact Or.inr (Or.inr (Or.inr (Or.inl rfl)))
      · split
        · exact Or.inr (Or.inr (Or.inr (Or.inr (Or.inl rfl))))
        · split
          · exact Or.inr (Or.inr (Or.inr (Or.inr (Or.inr (Or.inl rfl)))))
          · split
            · exact Or.inr (Or.inr (Or.inr (Or.inr (Or.inr (Or.inr rfl)))))
            · exact Or.inl rfl

theorem stackKeyChars_idem (l : List Char) :
    stackKeyChars (stackKeyChars l) = stackKeyChars l := by
  have hdef : stackKeyChars (stackKeyChars l) = synApply (rawKey (synApply (rawKey l))) := rfl
  have hdef2 : stackKeyChars l = synApply (rawKey l) := rfl
  rw [hdef, hdef2]
  rcases synApply_total (rawKey l) with h | h | h | h | h | h | h
  · rw [h, rawKey_idem]; exact h
  all_goals rw [h]
  all_goals decide

theorem findSubstr_some {pat : List Char} :
    ∀ {l : List Char} {n : Nat}, findSubstr pat l = some n →
      List.isPrefixOf pat (l.drop n) = true ∧
      ∀ m, m < n → List.isPrefixOf pat (l.drop m) = false := by
  intro l
  induction l with
  | nil =>
    intro n h
    unfold findSubstr at h
    split at h
    · rename_i hp
      injection h with h
      subst h
      exact ⟨hp, fun m hm => absurd hm (Nat.not_lt_zero m)⟩
    · exact absurd h (by simp)
  | cons c rest ih =>
    intro n h
    unfold findSubstr at h
    split at h
    · rename_i hp
      injection h with h
      subst h
      exact ⟨hp, fun m hm => absurd hm (Nat.not_lt_zero m)⟩
    · rename_i hp
      cases hfs : findSubstr pat rest with
      | none => rw [hfs] at h; exact absurd h (by simp)
      | some k =>
        rw [hfs] at h
        simp only [Option.map_some'] at h
        injection h with h
        subst h
        obtain ⟨h1, h2⟩ := ih hfs
        refine ⟨by simpa using h1, fun m hm => ?_⟩
        cases m with
        | zero => simpa using Bool.eq_false_iff.mpr hp
        | succ m' => simpa using h2 m' (Nat.lt_of_succ_lt_succ hm)

theorem findSubstr_none {pat : List Char} (hpat : pat ≠ []) :
    ∀ {l : List Char}, findSubstr pat l = none →
      ∀ m, List.isPrefixOf pat (l.drop m) = false := by
  intro l
  induction l with
  | nil =>
    intro _ m
    rw [List.drop_nil]
    cases pat with
    | nil => exact absurd rfl hpat
    | cons p ps => rfl
  | cons c rest ih =>
    intro h m
    unfold findSubstr at h
    split at h
    · exact absurd h (by simp)
    · rename_i hp
      have hfs : findSubstr pat rest = none := by
        cases hfs : findSubstr pat rest with
        | none => rfl
        | some k => rw [hfs] at h; exact absurd h (by simp)
      cases m with
      | zero => simpa using Bool.eq_false_iff.mpr hp
      | succ m' => simpa using ih hfs m'

theorem mem_insertSorted {x a : Svc} :
    ∀ {l : List Svc}, a ∈ insertSorted x l ↔ a = x ∨ a ∈ l := by
  intro l
  induction l with
  | nil => simp [insertSorted]
  | cons y ys ih =>
    unfold insertSorted
    split
    · rw [List.mem_cons, ih, List.mem_cons]
      tauto
    · rw [List.mem_cons, List.mem_cons]

theorem mem_foldl_insertSorted {a : Svc} :
    ∀ (l acc : List Svc),
      a ∈ l.foldl (fun acc x => insertSorted x acc) acc ↔ a ∈ acc ∨ a ∈ l := by
  intro l
  induction l with
  | nil => intro acc; simp
  | cons x xs ih =>
    intro acc
    rw [List.foldl_cons, ih, mem_insertSorted, List.mem_cons]
    tauto

theorem mem_sortSvcs {a : Svc} {l : List Svc} : a ∈ sortSvcs l ↔ a ∈ l := by
  unfold sortSvcs
  rw [mem_foldl_insertSorted]
  simp

theorem wsThenMatch_of_append {pat mid l : List Char}
    (hmid : ∀ c ∈ mid, isWSChar c = true)
    (hl : List.isPrefixOf pat l = true) :
    wsThenMatch pat (mid ++ l) = true := by
  induction mid with
  | nil =>
    cases l with
    | nil => simpa [wsThenMatch] using hl
    | cons c cs => simp [wsThenMatch, hl]
  | cons m ms ih =>
    have hm := hmid m (List.mem_cons_self m ms)
    have hrec := ih (fun c hc => hmid c (List.mem_cons_of_mem m hc))
    rw [List.cons_append, wsThenMatch, hm, hrec]
    simp

theorem commentedMatchAt_here {name mid post : List Char}
    (hmid : ∀ c ∈ mid, isWSChar c = true) :
    commentedMatchAt name ('#' :: (mid ++ (name ++ ':' :: post))) = true := by
  rw [commentedMatchAt, if_pos rfl]
  refine wsThenMatch_of_append hmid ?_
  rw [List.isPrefixOf_iff_prefix]
  exact ⟨post, by simp⟩

theorem commentedOutAux_append {name s : List Char}
    (h : commentedMatchAt name s = true) :
    ∀ p, commentedOutAux name (p ++ '\n' :: s) = true := by
  intro p
  induction p with
  | nil =>
    rw [List.nil_append, commentedOutAux, h]
    simp
  | cons x xs ih =>
    rw [List.cons_append, commentedOutAux, ih]
    simp

/-- C7: with disk stacks having key set root and core and README headers
having key set root and media, the consistency check fails, reporting core
as on-disk-only and media as README-only. -/
theorem validate_stacks_mismatch_example :
    validate_stacks [("Root", "root"), ("Media", "media")]
      [("root", [("a", "", none)]), ("core", [("b", "", none)])] = false ∧
    "core" ∈ missing_in_readme [("Root", "root"), ("Media", "media")]
      [("root", [("a", "", none)]), ("core", [("b", "", none)])] ∧
    "media" ∈ missing_in_filesystem [("Root", "root"), ("Media", "media")]
      [("root", [("a", "", none)]), ("core", [("b", "", none)])] := by
  refine ⟨by decide, by decide, by decide⟩

/-- C10: the commented-out test of `parse_compose_file` is a prefix match:
in a config file with an active `plex:` declaration and a comment line
`# plex: media server` that continues after the colon, the service `plex`
is omitted from the parsed output. -/
theorem commented_prefix_match_omits_service :
    parse_compose_file [("plex", ServiceEntry.mapping (Labels.dict []))]
      "services:\n  plex:\n    image: x\n# plex: media server\n" = [] := by
  decide

/-- C3: enhancement preservation is not stable across consecutive runs.
One application turns the bold name into a hyperlink, but a second
extraction-and-preservation run with the merged output as the previous
section extracts the label with its bold markers, searches for the
doubly-bold pattern, finds nothing, and returns the fresh text without the
hyperlink. -/
theorem preserve_enhancement_not_stable :
    preserve_manual_enhancements "[Plex](https://plex.example.com)" "**Plex**" =
      "[**Plex**](https://plex.example.com)" ∧
    preserve_manual_enhancements "[**Plex**](https://plex.example.com)" "**Plex**" =
      "**Plex**" := by
  refine ⟨by decide, by decide⟩

/-- C4 counterexample: in a document whose designated section is followed
by a level-1 heading line `# License` and then another `### Media`
subheading, the section span does not stop at the level-1 heading: it runs
to the end of the document (the after-part of the split is empty) and the
header inventory therefore also contains the `Media` header that lies
beyond the level-1 heading. -/
theorem section_span_counterexample :
    splitSection ("## 🏗️ Stack/Service Lineup\n### Root\n# License\n### Media\n").data =
      some (([] : List Char),
            ("## 🏗️ Stack/Service Lineup\n### Root\n# License\n### Media\n").data,
            ([] : List Char)) ∧
    parse_existing_stack_headers
        "## 🏗️ Stack/Service Lineup\n### Root\n# License\n### Media\n" =
      some [("Root", "root"), ("Media", "media")] := by
  refine ⟨by decide, by decide⟩

/-- C6: stack-key normalization is idempotent, and the display names
`App`, `Apps` and `Application` all normalize to one and the same key. -/
theorem stack_key_idempotent_and_synonyms :
    (∀ s : String, stackKeyOfName (stackKeyOfName s) = stackKeyOfName s) ∧
    stackKeyOfName "App" = stackKeyOfName "Apps" ∧
    stackKeyOfName "Apps" = stackKeyOfName "Application" := by
  refine ⟨fun s => ?_, by decide, by decide⟩
  show String.mk (stackKeyChars (String.mk (stackKeyChars s.data)).data) =
       String.mk (stackKeyChars s.data)
  exact congrArg String.mk (stackKeyChars_idem s.data)

/-- C2: whenever the parsed labels carry a `homepage.description` value
(in either the mapping or the list-of-strings encoding) that is non-empty,
and the raw text also has a preceding-comment match for the service, the
description returned by `extract_description` is the label-based one. -/
theorem extract_description_label_priority (labels : Labels) (name content d : List Char)
    (_hne : d ≠ [])
    (hl : labelDescription labels = some d)
    (_hc : findCommentCapture name content ≠ none) :
    extract_description labels name content = d := by
  unfold extract_description
  rw [hl]

/-- Witness for C2 at a concrete service: a dict-encoded label and a
preceding comment are both present and the label value is returned. -/
theorem extract_description_label_priority_witness :
    extract_description (Labels.dict [("homepage.description", "Media server")])
      "plex".data "# A media server\nplex:".data = "Media server".data :=
  extract_description_label_priority
    (Labels.dict [("homepage.description", "Media server")])
    "plex".data "# A media server\nplex:".data "Media server".data
    (by decide) (by decide) (by decide)

/-- C1: the document updater writes only when every prior step succeeded.
On every failure path (missing README, failed header-inventory parse,
failed consistency check) the state is unchanged and the exit code is 1;
on success the exit code is 0; and any change to the README content
requires the document to have been read, the header inventory parsed and
the consistency check passed. -/
theorem update_readme_write_gating (env : Env) :
    ((update_readme env).2 = false → (update_readme env).1 = env ∧ mainExit env = 1) ∧
    ((update_readme env).2 = true → mainExit env = 0) ∧
    ((update_readme env).1.readme ≠ env.readme →
      ∃ content headers, env.readme = some content ∧
        parse_existing_stack_headers content = some headers ∧
        validate_stacks headers env.stks = true) := by
  obtain ⟨readme?, stks⟩ := env
  cases readme? with
  | none =>
    refine ⟨fun _ => ⟨rfl, rfl⟩, fun h => absurd h (by simp [update_readme]), ?_⟩
    intro h
    exact absurd rfl h
  | some content =>
    cases hph : parse_existing_stack_headers content with
    | none =>
      refine ⟨fun _ => ⟨?_, ?_⟩, fun h => ?_, fun h => ?_⟩
      · simp [update_readme, hph]
      · simp [mainExit, update_readme, hph]
      · simp [update_readme, hph] at h
      · exact absurd (by simp [update_readme, hph]) h
    | some headers =>
      by_cases hv : validate_stacks headers stks = true
      · refine ⟨fun h => ?_, fun _ => ?_, fun _ => ?_⟩
        · simp [update_readme, hph, hv] at h
        · simp [mainExit, update_readme, hph, hv]
        · exact ⟨content, headers, rfl, hph, hv⟩
      · have hv' : validate_stacks headers stks = false := Bool.eq_false_iff.mpr hv
        refine ⟨fun _ => ⟨?_, ?_⟩, fun h => ?_, fun h => ?_⟩
        · simp [update_readme, hph, hv']
        · simp [mainExit, update_readme, hph, hv']
        · simp [update_readme, hph, hv'] at h
        · exact absurd (by simp [update_readme, hph, hv']) h

/-- Witness for C1 at the concrete state with no README file: the run
fails, the state is unchanged and the exit code is 1. -/
theorem update_readme_write_gating_witness :
    (update_readme (Env.mk none [])).1 = Env.mk none [] ∧
    mainExit (Env.mk none []) = 1 :=
  (update_readme_write_gating (Env.mk none [])).1 rfl

/-- C5: a config file whose raw text contains a commented-out declaration
line for a service (optional whitespace, `#`, optional whitespace, the
exact service name, a colon, then end of line) never yields that service in
the parsed triples. -/
theorem commented_out_service_never_parsed
    (services : List (String × ServiceEntry)) (content : String)
    (name pre mid post : List Char)
    (hsplit : content.data = pre ++ '#' :: (mid ++ (name ++ ':' :: post)))
    (hpre : pre = [] ∨ ∃ p, pre = p ++ ['\n'])
    (hmid : ∀ c ∈ mid, isWSChar c = true)
    (_hpost : post = [] ∨ post.head? = some '\n') :
    ∀ t ∈ parse_compose_file services content, t.1.data ≠ name := by
  have hmat : commentedMatchAt name ('#' :: (mid ++ (name ++ ':' :: post))) = true :=
    commentedMatchAt_here hmid
  have hco : commentedOut name content.data = true := by
    unfold commentedOut
    rcases hpre with rfl | ⟨p, rfl⟩
    · rw [hsplit, List.nil_append, hmat]
      simp
    · have hre : (p ++ ['\n']) ++ '#' :: (mid ++ (name ++ ':' :: post)) =
          p ++ '\n' :: ('#' :: (mid ++ (name ++ ':' :: post))) := by simp
      rw [hsplit, hre, commentedOutAux_append hmat p]
      simp
  intro t ht heq
  unfold parse_compose_file at ht
  have ht2 := mem_sortSvcs.mp ht
  rcases List.mem_filterMap.mp ht2 with ⟨⟨nm, entry⟩, _, hf⟩
  cases entry with
  | nonMapping => exact absurd hf (by simp)
  | mapping labels =>
    simp only at hf
    split at hf
    · exact absurd hf (by simp)
    · rename_i hcom
      injection hf with hf
      have hnm : nm = t.1 := congrArg Prod.fst hf
      rw [hnm, heq, hco] at hcom
      exact hcom rfl

/-- Witness for C5 at a concrete config: content with the commented-out
line `# plex:`, whose parse output cannot contain a `plex` triple. -/
theorem commented_out_service_never_parsed_witness :
    (("plex", "", (none : Option String)) : Svc) ∉
      parse_compose_file [("plex", ServiceEntry.mapping (Labels.dict []))] "x:\n# plex:\n" :=
  fun h =>
    commented_out_service_never_parsed
      [("plex", ServiceEntry.mapping (Labels.dict []))] "x:\n# plex:\n"
      "plex".data "x:\n".data " ".data "\n".data
      (by decide) (Or.inr ⟨"x:".data, by decide⟩) (by decide) (Or.inr (by decide))
      ("plex", "", none) h rfl

theorem entryChars_congr {a b : Svc} (h : eraseUrl a = eraseUrl b) :
    entryChars a = entryChars b := by
  have h1 : a.1 = b.1 := congrArg (fun p : String × String => p.1) h
  have h2 : a.2.1 = b.2.1 := congrArg (fun p : String × String => p.2) h
  unfold entryChars
  rw [h1, h2]

theorem map_entryChars_congr :
    ∀ {l₁ l₂ : List Svc}, l₁.map eraseUrl = l₂.map eraseUrl →
      l₁.map entryChars = l₂.map entryChars := by
  intro l₁
  induction l₁ with
  | nil =>
    intro l₂ h
    cases l₂ with
    | nil => rfl
    | cons b bs => exact absurd h (by simp)
  | cons a as ih =>
    intro l₂ h
    cases l₂ with
    | nil => exact absurd h (by simp)
    | cons b bs =>
      simp only [List.map_cons, List.cons.injEq] at h
      rw [List.map_cons, List.map_cons, entryChars_congr h.1, ih h.2]

theorem generate_markdown_table_congr {l₁ l₂ : List Svc}
    (h : l₁.map eraseUrl = l₂.map eraseUrl) :
    generate_markdown_table l₁ = generate_markdown_table l₂ := by
  unfold generate_markdown_table
  rw [map_entryChars_congr h]

theorem dictGet_congr_erase :
    ∀ (s₁ s₂ : List (String × List Svc)) (k : String),
      s₁.map (fun p => (p.1, p.2.map eraseUrl)) = s₂.map (fun p => (p.1, p.2.map eraseUrl)) →
      Option.map (List.map eraseUrl) (dictGet k s₁) =
        Option.map (List.map eraseUrl) (dictGet k s₂) := by
  intro s₁
  induction s₁ with
  | nil =>
    intro s₂ k h
    cases s₂ with
    | nil => rfl
    | cons b bs => exact absurd h (by simp)
  | cons a as ih =>
    intro s₂ k h
    cases s₂ with
    | nil => exact absurd h (by simp)
    | cons b bs =>
      simp only [List.map_cons, List.cons.injEq, Prod.mk.injEq] at h
      obtain ⟨⟨hk, hv⟩, hrest⟩ := h
      unfold dictGet
      rw [hk]
      by_cases hkk : b.1 = k
      · rw [if_pos hkk, if_pos hkk]
        simpa using hv
      · rw [if_neg hkk, if_neg hkk]
        exact ih bs k hrest

theorem bodyLine_congr (s₁ s₂ : List (String × List Svc))
    (h : s₁.map (fun p => (p.1, p.2.map eraseUrl)) = s₂.map (fun p => (p.1, p.2.map eraseUrl)))
    (hd : String × String) : bodyLine s₁ hd = bodyLine s₂ hd := by
  have hopt := dictGet_congr_erase s₁ s₂ hd.2 h
  unfold bodyLine
  cases hg1 : dictGet hd.2 s₁ with
  | none =>
    cases hg2 : dictGet hd.2 s₂ with
    | none => rfl
    | some v => rw [hg1, hg2] at hopt; exact absurd hopt (by simp)
  | some v1 =>
    cases hg2 : dictGet hd.2 s₂ with
    | none => rw [hg1, hg2] at hopt; exact absurd hopt (by simp)
    | some v2 =>
      rw [hg1, hg2] at hopt
      simp only [Option.map_some', Option.some.injEq] at hopt
      simp only [Option.getD_some]
      have hemp : v1.isEmpty = v2.isEmpty := by
        cases v1 <;> cases v2 <;> simp_all
      rw [hemp]
      split
      · rfl
      · exact generate_markdown_table_congr hopt

theorem stackBlocks_congr (s₁ s₂ : List (String × List Svc))
    (h : s₁.map (fun p => (p.1, p.2.map eraseUrl)) = s₂.map (fun p => (p.1, p.2.map eraseUrl))) :
    ∀ headers, stackBlocks s₁ headers = stackBlocks s₂ headers := by
  intro headers
  induction headers with
  | nil => rfl
  | cons hd hs ih =>
    unfold stackBlocks
    rw [bodyLine_congr s₁ s₂ h hd, ih]

/-- C8: the url components of the service triples have no effect on the
rendered section: for any two stacks dictionaries that agree after erasing
every url field, the section renderer produces identical text. -/
theorem section_renderer_ignores_urls (headers : List (String × String))
    (s₁ s₂ : List (String × List Svc))
    (h : s₁.map (fun p => (p.1, p.2.map eraseUrl)) = s₂.map (fun p => (p.1, p.2.map eraseUrl))) :
    generate_service_section headers s₁ = generate_service_section headers s₂ := by
  unfold generate_service_section sectionLines
  rw [stackBlocks_congr s₁ s₂ h headers]

/-- Witness for C8 at two concrete stacks dictionaries that differ only in
a url field. -/
theorem section_renderer_ignores_urls_witness :
    generate_service_section [("Root", "root")]
      [("root", [("a", "d", some "https://a.example.com")])] =
    generate_service_section [("Root", "root")]
      [("root", [("a", "d", none)])] :=
  section_renderer_ignores_urls [("Root", "root")]
    [("root", [("a", "d", some "https://a.example.com")])]
    [("root", [("a", "d", none)])] (by decide)

theorem entryChars_cons (s : Svc) : ∃ t, entryChars s = '*' :: t := by
  unfold entryChars
  split
  · exact ⟨_, rfl⟩
  · exact ⟨_, rfl⟩

theorem generate_markdown_table_ne_placeholder {svcs : List Svc} (h : svcs ≠ []) :
    generate_markdown_table svcs ≠ placeholder := by
  cases svcs with
  | nil => exact absurd rfl h
  | cons s rest =>
    unfold generate_markdown_table
    rw [List.map_cons]
    obtain ⟨t, ht⟩ := entryChars_cons s
    intro heq
    cases hrm : rest.map entryChars with
    | nil =>
      rw [hrm] at heq
      have : entryChars s = placeholder := heq
      rw [ht] at this
      have hhead : '*' = '_' := by
        injection this
      exact absurd hhead (by decide)
    | cons e2 es =>
      rw [hrm] at heq
      have : entryChars s ++ " • ".data ++ sepJoin " • ".data (e2 :: es) = placeholder := heq
      rw [ht] at this
      have hhead : '*' = '_' := by
        rw [List.cons_append, List.cons_append] at this
        injection this
      exact absurd hhead (by decide)

theorem dictGet_mem {l : List (String × List Svc)} {k : String} :
    k ∈ l.map Prod.fst → ∃ v, dictGet k l = some v ∧ (k, v) ∈ l := by
  induction l with
  | nil => intro h; exact absurd h (by simp)
  | cons p rest ih =>
    intro h
    unfold dictGet
    by_cases hk : p.1 = k
    · refine ⟨p.2, by rw [if_pos hk], ?_⟩
      have : (k, p.2) = p := by
        rw [← hk]
      rw [this]
      exact List.mem_cons_self p rest
    · rcases List.mem_map.mp h with ⟨q, hq, hqk⟩
      rcases List.mem_cons.mp hq with rfl | hq2
      · exact absurd hqk hk
      · obtain ⟨v, hv1, hv2⟩ := ih (List.mem_map.mpr ⟨q, hq2, hqk⟩)
        exact ⟨v, by rw [if_neg hk]; exact hv1, List.mem_cons_of_mem p hv2⟩

theorem hashline_ne_placeholder (x : List Char) : "### ".data ++ x ≠ placeholder := by
  intro h
  have h2 : ('#' :: ('#' :: ('#' :: (' ' :: x)))) =
      ('_' :: "No services defined_".data) := h
  have hhead : '#' = '_' := by injection h2
  exact absurd hhead (by decide)

theorem placeholder_notMem_stackBlocks
    (stks : List (String × List Svc))
    (hne : ∀ p ∈ stks, p.2 ≠ ([] : List Svc)) :
    ∀ headers : List (String × String),
      (∀ hd ∈ headers, hd.2 ∈ stks.map Prod.fst) →
      placeholder ∉ stackBlocks stks headers := by
  intro headers
  induction headers with
  | nil => intro _ h; simp [stackBlocks] at h
  | cons hd hs ih =>
    intro hsub hmem
    unfold stackBlocks at hmem
    rcases List.mem_cons.mp hmem with h1 | hmem2
    · exact hashline_ne_placeholder hd.1.data h1.symm
    · rcases List.mem_cons.mp hmem2 with h2 | hmem3
      · exact absurd h2 (by decide)
      · rcases List.mem_cons.mp hmem3 with h3 | hmem4
        · obtain ⟨v, hv1, hv2⟩ := dictGet_mem (hsub hd (List.mem_cons_self hd hs))
          have hvne : v ≠ [] := hne (hd.2, v) hv2
          unfold bodyLine at h3
          rw [hv1] at h3
          simp only [Option.getD_some] at h3
          rw [if_neg (by simpa [List.isEmpty_iff] using hvne)] at h3
          exact generate_markdown_table_ne_placeholder hvne h3.symm
        · rcases List.mem_cons.mp hmem4 with h4 | hmem5
          · exact absurd h4 (by decide)
          · exact ih (fun d hd2 => hsub d (List.mem_cons_of_mem hd hd2)) hmem5

/-- C9: once the consistency check has passed and every collected stack has
a non-empty service list (which is how `collect_services` records stacks),
the rendered section lines never contain the `_No services defined_`
placeholder: the placeholder branch of the renderer is unreachable. -/
theorem placeholder_unreachable_after_validation
    (headers : List (String × String)) (stks : List (String × List Svc))
    (hne : ∀ p ∈ stks, p.2 ≠ ([] : List Svc))
    (hv : validate_stacks headers stks = true) :
    placeholder ∉ sectionLines headers stks := by
  have hsub : ∀ hd ∈ headers, hd.2 ∈ stks.map Prod.fst := by
    intro hd hh
    have hnor : ¬ ((missing_in_readme headers stks).Nonempty ∨
        (missing_in_filesystem headers stks).Nonempty) := by
      intro hor
      unfold validate_stacks at hv
      rw [if_pos hor] at hv
      exact Bool.false_ne_true hv
    have hemp : missing_in_filesystem headers stks = ∅ :=
      Finset.not_nonempty_iff_eq_empty.mp (not_or.mp hnor).2
    have hss := Finset.sdiff_eq_empty_iff_subset.mp hemp
    have hin : hd.2 ∈ (headers.map Prod.snd).toFinset :=
      List.mem_toFinset.mpr (List.mem_map.mpr ⟨hd, hh, rfl⟩)
    exact List.mem_toFinset.mp (hss hin)
  intro hmem
  unfold sectionLines at hmem
  rcases List.mem_cons.mp hmem with h1 | hmem2
  · exact absurd h1 (by decide)
  · rcases List.mem_cons.mp hmem2 with h2 | hmem3
    · exact absurd h2 (by decide)
    · rcases List.mem_cons.mp hmem3 with h3 | hmem4
      · exact absurd h3 (by decide)
      · rcases List.mem_cons.mp hmem4 with h4 | hmem5
        · exact absurd h4 (by decide)
        · exact placeholder_notMem_stackBlocks stks hne headers hsub hmem5

/-- Witness for C9 at a concrete validated state: one header, one matching
non-empty stack, no placeholder line in the rendered section. -/
theorem placeholder_unreachable_after_validation_witness :
    placeholder ∉ sectionLines [("Root", "root")] [("root", [("a", "", none)])] :=
  placeholder_unreachable_after_validation [("Root", "root")]
    [("root", [("a", "", none)])] (by decide) (by decide)

/-- C4 amended: the designated section span runs from the first occurrence
of the heading literal to the next occurrence of `\n## ` (that is, the next
line starting a level-2 heading) or to end-of-document; a level-1 heading
line does not terminate the span. -/
theorem section_span_bounded_by_level2 (content pre sec post : List Char)
    (h : splitSection content = some (pre, sec, post)) :
    content = pre ++ sec ++ post ∧
    List.isPrefixOf LINEUP sec = true ∧
    (post = [] ∨ List.isPrefixOf SECEND post = true) ∧
    (∀ i, List.isPrefixOf SECEND ((sec.drop LINEUP.length).drop i) = false) := by
  cases hfi : findSubstr LINEUP content with
  | none => rw [splitSection, hfi] at h; exact absurd h (by simp)
  | some i =>
    obtain ⟨hpre1, _⟩ := findSubstr_some hfi
    cases hfj : findSubstr SECEND ((content.drop i).drop LINEUP.length) with
    | none =>
      rw [splitSection, hfi] at h
      simp only [hfj, Option.some.injEq, Prod.mk.injEq] at h
      obtain ⟨hp, hs, hq⟩ := h
      subst hp; subst hs; subst hq
      refine ⟨by rw [List.append_nil, List.take_append_drop], hpre1, Or.inl rfl, ?_⟩
      intro m
      exact findSubstr_none (by decide) hfj m
    | some j =>
      rw [splitSection, hfi] at h
      simp only [hfj, Option.some.injEq, Prod.mk.injEq] at h
      obtain ⟨hp, hs, hq⟩ := h
      subst hp; subst hs; subst hq
      obtain ⟨hj1, hj2⟩ := findSubstr_some hfj
      refine ⟨?_, ?_, ?_, ?_⟩
      · rw [List.append_assoc, List.take_append_drop, List.take_append_drop]
      · rw [List.isPrefixOf_iff_prefix] at hpre1 ⊢
        exact List.prefix_take_iff.mpr ⟨hpre1, Nat.le_add_right _ _⟩
      · right
        rw [List.drop_drop] at hj1
        exact hj1
      · intro m
        rw [List.drop_take, Nat.add_sub_cancel_left, List.drop_take]
        by_cases him : m < j
        · apply Bool.eq_false_iff.mpr
          intro htr
          rw [List.isPrefixOf_iff_prefix] at htr
          have hpref := (List.prefix_take_iff.mp htr).1
          have hb := List.isPrefixOf_iff_prefix.mpr hpref
          have hf := hj2 m him
          rw [hb] at hf
          exact absurd hf (by decide)
        · have hz : j - m = 0 := by omega
          rw [hz, List.take_zero]
          decide

/-- Witness for the amended C4 at a concrete document: a section followed
by a level-2 heading, split as computed by `splitSection`, whose after-part
starts with `\n## `. -/
theorem section_span_bounded_by_level2_witness :
    ("Intro\n## 🏗️ Stack/Service Lineup\n### A\n## Next\nTail").data =
      "Intro\n".data ++ "## 🏗️ Stack/Service Lineup\n### A".data ++ "\n## Next\nTail".data ∧
    ("\n## Next\nTail".data = ([] : List Char) ∨
      List.isPrefixOf SECEND "\n## Next\nTail".data = true) := by
  have h := section_span_bounded_by_level2
    ("Intro\n## 🏗️ Stack/Service Lineup\n### A\n## Next\nTail").data
    "Intro\n".data "## 🏗️ Stack/Service Lineup\n### A".data "\n## Next\nTail".data
    (by decide)
  exact ⟨h.1, h.2.2.1⟩
